import Mathlib

/-!
Shallow embedding of the Personal-KnowledgeBase RAG pipeline.

Each definition is translated from one Python function of the repository:
`document_loader.py`, `qdrant_helper.py`, `memory_manager.py`,
`conversation_aware_rag.py` and `rag.py`.  External effects (the Qdrant
client, the sentence-transformer embedding model, the HuggingFace
question-answering pipeline, wall-clock time) are made explicit parameters:
a function that consumes the result of a remote search takes that result
list as an argument, and the answer-generation model is a function
parameter.  Python floats are modelled as rationals, Python strings as
`String` (or `List Char` where character slicing matters), and Python
dicts as insertion-ordered association lists, mirroring CPython's
guaranteed key insertion order.
-/

namespace KnowledgeBase

/-! ### Python primitives shared by several modules -/

/-- Characters removed by Python `str.strip()` with no argument
(the ASCII whitespace characters; `str.strip` also removes some further
Unicode whitespace, which no claim exercises). -/
def isPySpace (c : Char) : Bool :=
  c = ' ' || c = '\t' || c = '\n' || c = '\r' || c = '\x0b' || c = '\x0c'

/-- Python `s.strip()`: drop leading and trailing whitespace. -/
def pyStrip (s : String) : String :=
  ⟨((s.data.dropWhile isPySpace).reverse.dropWhile isPySpace).reverse⟩

/-- Python `range(0, stop, step)` for `step > 0`: the multiples of `step`
below `stop`. -/
def pyRange (stop step : Nat) : List Nat :=
  (List.range ((stop + step - 1) / step)).map (· * step)

/-- Assignment `d[k] = v` on a CPython dict modelled as an
insertion-ordered association list: an existing key keeps its position and
gets the new value, a new key is appended at the end. -/
def dictSet {α : Type} (d : List (String × α)) (k : String) (v : α) :
    List (String × α) :=
  if d.any (fun p => p.1 = k) then
    d.map (fun p => if p.1 = k then (k, v) else p)
  else d ++ [(k, v)]

/-- Insert `x` into the already-sorted list `sorted`, after every element
`y` with `le y x`.  Folding this over a list is a stable sort, so it is
extensionally the same as CPython's stable `list.sort`. -/
def insertOrd {α : Type} (le : α → α → Prop) [DecidableRel le]
    (sorted : List α) (x : α) : List α :=
  match sorted with
  | [] => [x]
  | y :: ys => if le y x then y :: insertOrd le ys x else x :: y :: ys

/-- Stable sort by the relation `le`, modelling CPython `list.sort` /
`sorted` (Timsort is stable; any two stable sorts by the same total
preorder agree). -/
def pySort {α : Type} (le : α → α → Prop) [DecidableRel le]
    (l : List α) : List α :=
  l.foldl (insertOrd le) []

/-! ### document_loader.py -/

/-- A langchain `Document`: text plus metadata of some type `μ`.
`page_content` is a character list so that Python slicing and `len` are
literal. -/
structure Doc (μ : Type) where
  page_content : List Char
  metadata : μ
deriving DecidableEq

/-- Metadata of a chunk produced by `create_rolling_window_chunks`: either
the untouched metadata of a document emitted as-is, or the original
metadata updated with `chunk_start`/`chunk_end` (and
`chunk_type = "rolling_window"`). -/
inductive RollMeta (μ : Type) where
  | original (m : μ)
  | window (m : μ) (chunk_start chunk_end : Nat)
deriving DecidableEq

/-- Model of `document_loader.create_rolling_window_chunks` (lines
81-109): a document whose text has at most `window_size` characters is
emitted as-is; otherwise one chunk `text[i : i+window_size]` is emitted
for every `i` in `range(0, len(text) - window_size + 1, step_size)`, its
metadata extended with the window position. -/
def create_rolling_window_chunks {μ : Type} (documents : List (Doc μ))
    (window_size step_size : Nat) : List (Doc (RollMeta μ)) :=
  documents.flatMap (fun doc =>
    let text := doc.page_content
    if text.length ≤ window_size then
      [⟨text, .original doc.metadata⟩]
    else
      (pyRange (text.length - window_size + 1) step_size).map (fun i =>
        ⟨(text.drop i).take window_size,
         .window doc.metadata i (i + window_size)⟩))

/-! ### qdrant_helper.py -/

/-- A result dict built by `query_qdrant_multi_strategy` (lines 191-197)
or `fuzzy_search` (lines 277-283).  Both carry exactly the keys `score`,
`text`, `metadata`, `strategy` (plus `search_type` for fuzzy results) —
crucially, neither carries an `id` key.  Metadata is kept abstract as a
string. -/
structure SearchResult where
  score : ℚ
  text : String
  metadata : String
  strategy : String
deriving DecidableEq

/-- Weight validation of `hybrid_search` (lines 319-324): if the two
weights do not sum to exactly 1, each is divided by their sum. -/
def normalizeWeights (vector_weight fuzzy_weight : ℚ) : ℚ × ℚ :=
  if vector_weight + fuzzy_weight ≠ 1 then
    (vector_weight / (vector_weight + fuzzy_weight),
     fuzzy_weight / (vector_weight + fuzzy_weight))
  else (vector_weight, fuzzy_weight)

/-- An entry of the `combined_results` dict of `hybrid_search` before the
combined score is computed. -/
structure CombEntry where
  vector_score : ℚ
  fuzzy_score : ℚ
  text : String
  metadata : String
  strategy : String
deriving DecidableEq

/-- A scored entry of the final `results_list` of `hybrid_search`. -/
structure HybridEntry where
  id : Nat
  score : ℚ
  vector_score : ℚ
  fuzzy_score : ℚ
  text : String
  metadata : String
  strategy : String
deriving DecidableEq

/-- Dict assignment `combined_results[doc_id] = ...` keyed by the
generated ids. -/
def dictSetNat (d : List (Nat × CombEntry)) (k : Nat) (v : CombEntry) :
    List (Nat × CombEntry) :=
  if d.any (fun p => p.1 = k) then
    d.map (fun p => if p.1 = k then (k, v) else p)
  else d ++ [(k, v)]

/-- One iteration of the vector-result loop of `hybrid_search` (lines
334-342).  `result.get("id", str(uuid.uuid4()))` looks up an `id` key the
result dicts never have, so it always yields a fresh UUID; fresh UUIDs are
modelled by a counter that is distinct from every key already present. -/
def hybridAddVector (st : List (Nat × CombEntry) × Nat) (r : SearchResult) :
    List (Nat × CombEntry) × Nat :=
  (dictSetNat st.1 st.2 ⟨r.score, 0, r.text, r.metadata, r.strategy⟩,
   st.2 + 1)

/-- One iteration of the fuzzy-result loop of `hybrid_search` (lines
345-358): again a fresh id is generated (no `id` key exists in the fuzzy
result dicts), then membership in `combined_results` is tested; on a hit
only `fuzzy_score` would be updated, otherwise a fuzzy-only entry is
inserted. -/
def hybridAddFuzzy (st : List (Nat × CombEntry) × Nat) (r : SearchResult) :
    List (Nat × CombEntry) × Nat :=
  let d := st.1
  let doc_id := st.2
  if d.any (fun p => p.1 = doc_id) then
    (d.map (fun p =>
      if p.1 = doc_id then (doc_id, { p.2 with fuzzy_score := r.score })
      else p), doc_id + 1)
  else
    (d ++ [(doc_id, ⟨0, r.score, r.text, r.metadata, r.strategy⟩)],
     doc_id + 1)

/-- Model of `qdrant_helper.hybrid_search` (lines 296-384) downstream of
the two remote searches: `vector_results` and `fuzzy_results` are the
lists the two search functions returned.  Weights are validated, the two
result lists are folded into the `combined_results` dict, each entry gets
`combined_score = vector_score*vector_weight + fuzzy_score*fuzzy_weight`,
and the list is sorted by score descending (stable, `reverse=True`) and
truncated to `top_k`. -/
def hybrid_search (vector_results fuzzy_results : List SearchResult)
    (vector_weight fuzzy_weight : ℚ) (top_k : Nat) : List HybridEntry :=
  let w := normalizeWeights vector_weight fuzzy_weight
  let st1 := vector_results.foldl hybridAddVector ([], 0)
  let st2 := fuzzy_results.foldl hybridAddFuzzy st1
  let results_list := st2.1.map (fun p =>
    ⟨p.1, p.2.vector_score * w.1 + p.2.fuzzy_score * w.2,
     p.2.vector_score, p.2.fuzzy_score, p.2.text, p.2.metadata,
     p.2.strategy⟩)
  (pySort (fun a b : HybridEntry => b.score ≤ a.score) results_list).take
    top_k

/-! ### memory_manager.py -/

/-- A point stored in the `chat_memory` collection by `store_message`.
The embedding vector and the timestamp are external effects and are not
modelled; the payload fields the code reads back are kept. -/
structure StoredMsg where
  session_id : String
  content : String
  role : String
  sequence_num : Nat
deriving DecidableEq

/-- The scroll of `store_message` (lines 54-58): points of the session,
`limit=1000`, so at most 1000 points come back. -/
def sessionScroll (store : List StoredMsg) (sid : String) :
    List StoredMsg :=
  (store.filter (fun m => m.session_id = sid)).take 1000

/-- Model of `memory_manager.store_message` (lines 39-75): the new message
gets `sequence_num = len(scrolled existing messages) + 1` and is upserted
(appended, since its uuid id is fresh). -/
def store_message (store : List StoredMsg) (sid content role : String) :
    List StoredMsg :=
  store ++ [⟨sid, content, role, (sessionScroll store sid).length + 1⟩]

/-- Iterated single-writer `store_message` into one session, starting from
an empty store. -/
def storeN : Nat → List StoredMsg
  | 0 => []
  | n + 1 => store_message (storeN n) "s" "m" "user"

/-- A point returned by the scroll of `retrieve_messages_by_sequence`
(the `search_result` of lines 98-103): payload content, role, and the
`sequence_num` key, which a payload may lack. -/
structure Hit where
  content : String
  role : String
  sequence_num : Option Nat
deriving DecidableEq

/-- A langchain chat message as built at lines 114-119. -/
inductive ChatMessage where
  | human (content : String)
  | ai (content : String)
  | system (content : String)
deriving DecidableEq

/-- Text of a chat message (langchain `.content`). -/
def ChatMessage.content : ChatMessage → String
  | .human c => c
  | .ai c => c
  | .system c => c

/-- The role dispatch of lines 112-119: payloads whose role is none of
`user`/`assistant`/`system` produce no message. -/
def toChatMessage (h : Hit) : Option ChatMessage :=
  if h.role = "user" then some (.human h.content)
  else if h.role = "assistant" then some (.ai h.content)
  else if h.role = "system" then some (.system h.content)
  else none

/-- The `content_to_seq` dict of lines 105-109: for each hit carrying a
`sequence_num`, map its content to that number; a later hit with the same
content overwrites the entry. -/
def contentToSeq (hits : List Hit) : List (String × Nat) :=
  hits.foldl (fun d h =>
    match h.sequence_num with
    | some n => dictSet d h.content n
    | none => d) []

/-- The sort key `content_to_seq.get(x.content, 0)` of line 124. -/
def lookupSeq (d : List (String × Nat)) (c : String) : Nat :=
  ((d.find? (fun p => p.1 = c)).map (fun p => p.2)).getD 0

/-- Model of `memory_manager.retrieve_messages_by_sequence` (lines 84-129)
downstream of the scroll: `hits` is what the store returned (already
filtered by session and by the sequence range, which the database
applies).  Messages are built in store order, then sorted by the
content-keyed sequence lookup — unless no hit carried a `sequence_num`,
in which case the dict is empty and the store order is kept. -/
def retrieve_messages_by_sequence (hits : List Hit) : List ChatMessage :=
  let d := contentToSeq hits
  let messages := hits.filterMap toChatMessage
  if d.isEmpty then messages
  else pySort (fun a b => lookupSeq d a.content ≤ lookupSeq d b.content)
    messages

/-- Window expansion of `retrieve_context_relevant_messages` (line 165):
a matched sequence number becomes the inclusive range
`(max(1, seq - context_window), seq + context_window)`. -/
def expandRange (context_window seq : Nat) : Nat × Nat :=
  (max 1 (seq - context_window), seq + context_window)

/-- Lexicographic tuple order used by Python `list.sort()` on pairs. -/
def pairLe (a b : Nat × Nat) : Prop :=
  a.1 < b.1 ∨ (a.1 = b.1 ∧ a.2 ≤ b.2)

instance : DecidableRel pairLe := fun a b => by
  unfold pairLe; infer_instance

/-- The merge loop of `retrieve_context_relevant_messages` (lines
169-179), carrying `(current_start, current_end)`: the next sorted range
is merged when its start is at most `current_end + 1`, otherwise the
current range is emitted. -/
def mergeLoop : Nat × Nat → List (Nat × Nat) → List (Nat × Nat)
  | cur, [] => [cur]
  | cur, r :: rest =>
    if r.1 ≤ cur.2 + 1 then mergeLoop (cur.1, max cur.2 r.2) rest
    else cur :: mergeLoop r rest

/-- Ranges produced by `retrieve_context_relevant_messages` (lines
164-179) from the matched sequence numbers: expand each match by the
context window, sort, and merge overlapping or adjacent ranges.  (The
code only reaches this point with a nonempty match list.) -/
def contextRanges (matched : List Nat) (context_window : Nat) :
    List (Nat × Nat) :=
  match pySort pairLe (matched.map (expandRange context_window)) with
  | [] => []
  | r :: rest => mergeLoop r rest

/-! ### rag.py -/

/-- Model of `rag.generate_answer` (lines 42-68).  The HuggingFace
question-answering pipeline is the parameter `qa`; a Python exception
raised by it is an `Except.error` carrying `str(e)`.  The returned flag
records whether the pipeline was invoked: empty or whitespace-only
context short-circuits to the fixed string without calling it, and a
pipeline exception is converted into an error-describing answer. -/
def generate_answer (qa : String → String → Except String String)
    (query context : String) : String × Bool :=
  if pyStrip context = "" then
    ("No information found in the database.", false)
  else
    match qa query context with
    | .ok result => (result, true)
    | .error e => ("Error generating answer: " ++ e, true)

/-! ### conversation_aware_rag.py -/

/-- A document chunk dict as returned by `hybrid_search` to
`answer_query_with_conversation_context` (the fields it reads at lines
63-73). -/
structure DocChunk where
  text : String
  metadata : String
  score : ℚ
  strategy : String
deriving DecidableEq

/-- An entry of `all_sources` (lines 67-73 and 89-94).  Document sources
leave `role` empty; conversation sources leave `metadata` and `strategy`
empty and carry the fixed score 1. -/
structure Source where
  type : String
  text : String
  metadata : String
  score : ℚ
  strategy : String
  role : String
deriving DecidableEq

/-- The `unique_texts` dict of lines 61-64: chunks keyed by their exact
text, a later chunk with the same text overwriting the earlier value in
place; `unique_chunks` is `list(unique_texts.values())`. -/
def uniqueChunks (chunks : List DocChunk) : List DocChunk :=
  (chunks.foldl (fun d c => dictSet d c.text c) []).map (fun p => p.2)

/-- The `document_context` string (lines 47 and 59-66): empty when no
chunk was retrieved, else the space-joined texts of the deduplicated
chunks. -/
def documentContextOf (chunks : List DocChunk) : String :=
  if chunks.isEmpty then ""
  else " ".intercalate ((uniqueChunks chunks).map (fun c => c.text))

/-- The document entries of `all_sources` (lines 67-73). -/
def docSourcesOf (chunks : List DocChunk) : List Source :=
  if chunks.isEmpty then []
  else (uniqueChunks chunks).map (fun c =>
    ⟨"document", c.text, c.metadata, c.score, c.strategy, ""⟩)

/-- Model of `memory_manager.format_context_messages` (lines 208-219). -/
def format_context_messages (messages : List ChatMessage) : String :=
  "\n\n".intercalate (messages.map (fun m =>
    match m with
    | .human c => "User: " ++ c
    | .ai c => "Assistant: " ++ c
    | .system c => "System: " ++ c))

/-- Langchain `msg.type`, read at line 92. -/
def ChatMessage.msgType : ChatMessage → String
  | .human _ => "human"
  | .ai _ => "ai"
  | .system _ => "system"

/-- The `conversation_context` string (lines 48 and 78-88): formatted
relevant messages when memory is enabled and some message was retrieved,
else empty. -/
def conversationContextOf (use_conversation_memory : Bool)
    (relevant_messages : List ChatMessage) : String :=
  if use_conversation_memory ∧ ¬ relevant_messages.isEmpty then
    format_context_messages relevant_messages
  else ""

/-- The conversation entries of `all_sources` (lines 89-94). -/
def convSourcesOf (use_conversation_memory : Bool)
    (relevant_messages : List ChatMessage) : List Source :=
  if use_conversation_memory ∧ ¬ relevant_messages.isEmpty then
    relevant_messages.map (fun m =>
      ⟨"conversation", m.content, "", 1, "", m.msgType⟩)
  else []

/-- Specification-side helper: first-occurrence deduplication of a list
of texts, skipping everything already in `seen`.  `dedupFrom [] l` keeps
exactly the first occurrence of each distinct element of `l`, in order.
Used to state what the `unique_texts` dict of lines 61-64 computes. -/
def dedupFrom (seen : List String) : List String → List String
  | [] => []
  | x :: xs =>
    if seen.any (fun t => t = x) then dedupFrom seen xs
    else x :: dedupFrom (seen ++ [x]) xs

/-- The fixed no-context answer of line 101. -/
def insufficientInfoAnswer : String :=
  "I don't have enough information to answer that question. Please try a different question or upload relevant documents."

/-- The answer-selection step of lines 98-120.  `g` is `generate_answer`
as a black box (its answer string), `fmt` abstracts the Python float
formatting `":.0f"` used only inside the section labels.  The flag
records whether `generate_answer` was invoked: the no-context branch
returns the fixed answer without calling it. -/
def selectAnswer (g : String → String → String) (fmt : ℚ → String)
    (query document_context conversation_context : String)
    (conversation_weight document_weight : ℚ) : String × Bool :=
  if document_context = "" ∧ conversation_context = "" then
    (insufficientInfoAnswer, false)
  else
    let w :=
      if document_context ≠ "" ∧ conversation_context ≠ "" then
        (document_weight / (document_weight + conversation_weight),
         conversation_weight / (document_weight + conversation_weight))
      else (document_weight, conversation_weight)
    let sections :=
      (if document_context ≠ "" then
        ["Document Context (" ++ fmt (w.1 * 100) ++ "% weight):\n" ++
          document_context]
      else []) ++
      (if conversation_context ≠ "" then
        ["Conversation Context (" ++ fmt (w.2 * 100) ++ "% weight):\n" ++
          conversation_context]
      else [])
    (g query ("\n\n".intercalate sections), true)

/-- What `answer_query_with_conversation_context` returns (lines 126-131),
plus the invocation flag of `selectAnswer`. -/
structure AnswerResult where
  answer : String
  sources : List Source
  document_context_used : Bool
  conversation_context_used : Bool
  generator_invoked : Bool
deriving DecidableEq

/-- Model of
`conversation_aware_rag.answer_query_with_conversation_context` (lines
19-131).  The two retrievals are external calls whose results are the
parameters `document_chunks` (from `hybrid_search`) and
`relevant_messages` (from `retrieve_context_relevant_messages`); the
conversation store is threaded explicitly.  The query is stored first
(line 44), contexts and sources are built, an answer is selected, and the
answer is stored (line 123) before the result dict is returned. -/
def answer_query_with_conversation_context
    (g : String → String → String) (fmt : ℚ → String)
    (document_chunks : List DocChunk)
    (relevant_messages : List ChatMessage)
    (use_conversation_memory : Bool) (store : List StoredMsg)
    (session_id query : String)
    (conversation_weight document_weight : ℚ) :
    AnswerResult × List StoredMsg :=
  let store1 := store_message store session_id query "user"
  let document_context := documentContextOf document_chunks
  let conversation_context :=
    conversationContextOf use_conversation_memory relevant_messages
  let all_sources := docSourcesOf document_chunks ++
    convSourcesOf use_conversation_memory relevant_messages
  let res := selectAnswer g fmt query document_context
    conversation_context conversation_weight document_weight
  let store2 := store_message store1 session_id res.1 "assistant"
  (⟨res.1, all_sources, ¬ document_context = "",
    ¬ conversation_context = "", res.2⟩, store2)

/-! ## Helper lemmas -/

theorem insertOrd_perm {α : Type} (le : α → α → Prop) [DecidableRel le]
    (l : List α) (x : α) : (insertOrd le l x).Perm (x :: l) := by
  induction l with
  | nil => simp [insertOrd]
  | cons y ys ih =>
    by_cases h : le y x
    · simpa [insertOrd, h] using (ih.cons y).trans (List.Perm.swap x y ys)
    · simp [insertOrd, h]

theorem foldl_insertOrd_perm {α : Type} (le : α → α → Prop)
    [DecidableRel le] (l acc : List α) :
    (l.foldl (insertOrd le) acc).Perm (l ++ acc) := by
  induction l generalizing acc with
  | nil => simp
  | cons x xs ih =>
    have h1 := ih (insertOrd le acc x)
    have h2 : (xs ++ insertOrd le acc x).Perm (xs ++ x :: acc) :=
      List.Perm.append_left xs (insertOrd_perm le acc x)
    have h3 : (xs ++ x :: acc).Perm (x :: (xs ++ acc)) :=
      List.perm_middle
    simpa using (h1.trans h2).trans h3

theorem pySort_perm {α : Type} (le : α → α → Prop) [DecidableRel le]
    (l : List α) : (pySort le l).Perm l := by
  simpa using foldl_insertOrd_perm le l []

theorem insertOrd_head? {α : Type} (le : α → α → Prop) [DecidableRel le]
    (l : List α) (x : α) :
    (insertOrd le l x).head? = some x ∨
      (insertOrd le l x).head? = l.head? := by
  cases l with
  | nil => left; rfl
  | cons y ys =>
    by_cases h : le y x
    · right; simp [insertOrd, h]
    · left; simp [insertOrd, h]

theorem insertOrd_chain' {α : Type} (le : α → α → Prop) [DecidableRel le]
    (htot : ∀ a b, le a b ∨ le b a) (l : List α) (x : α)
    (h : List.Chain' le l) : List.Chain' le (insertOrd le l x) := by
  induction l with
  | nil => simp [insertOrd]
  | cons y ys ih =>
    rcases List.chain'_cons'.mp h with ⟨hhead, htail⟩
    by_cases hyx : le y x
    · simp only [insertOrd, if_pos hyx]
      refine List.chain'_cons'.mpr ⟨?_, ih htail⟩
      intro z hz
      rcases insertOrd_head? le ys x with heq | heq
      · rw [heq, Option.mem_some_iff] at hz
        rw [← hz]
        exact hyx
      · rw [heq] at hz
        exact hhead z hz
    · simp only [insertOrd, if_neg hyx]
      refine List.chain'_cons'.mpr ⟨?_, h⟩
      intro z hz
      rw [List.head?_cons, Option.mem_some_iff] at hz
      rw [← hz]
      rcases htot x y with hxy | hyx2
      · exact hxy
      · exact absurd hyx2 hyx

theorem pySort_chain' {α : Type} (le : α → α → Prop) [DecidableRel le]
    (htot : ∀ a b, le a b ∨ le b a) (l : List α) :
    List.Chain' le (pySort le l) := by
  have main : ∀ (l acc : List α), List.Chain' le acc →
      List.Chain' le (l.foldl (insertOrd le) acc) := by
    intro l
    induction l with
    | nil => intro acc hacc; exact hacc
    | cons x xs ih =>
      intro acc hacc
      exact ih _ (insertOrd_chain' le htot acc x hacc)
  exact main l [] List.chain'_nil

/-! ## C3: rolling-window chunking -/

/-- C3: for a document whose text has length `L ≥ window_size`,
`create_rolling_window_chunks` yields exactly
`(L - window_size) / step_size + 1` chunks, the `k`-th chunk's text being
the `window_size`-character slice starting at offset `k * step_size`; for
`L < window_size` it yields the single original document unchanged. -/
theorem C3_rolling_window_chunks {μ : Type} (doc : Doc μ)
    (window_size step_size : Nat) (hs : 0 < step_size) :
    (window_size ≤ doc.page_content.length →
      (create_rolling_window_chunks [doc] window_size step_size).length =
        (doc.page_content.length - window_size) / step_size + 1 ∧
      ∀ k < (create_rolling_window_chunks [doc] window_size
          step_size).length,
        (create_rolling_window_chunks [doc] window_size
            step_size)[k]?.map (fun c => c.page_content) =
          some ((doc.page_content.drop (k * step_size)).take window_size)
        ∧ ((doc.page_content.drop (k * step_size)).take
            window_size).length = window_size) ∧
    (doc.page_content.length < window_size →
      create_rolling_window_chunks [doc] window_size step_size =
        [⟨doc.page_content, .original doc.metadata⟩]) := by
  constructor
  · intro hws
    by_cases hle : doc.page_content.length ≤ window_size
    · have hLw : doc.page_content.length = window_size :=
        le_antisymm hle hws
      have hout : create_rolling_window_chunks [doc] window_size step_size
          = [⟨doc.page_content, .original doc.metadata⟩] := by
        simp [create_rolling_window_chunks, hle]
      constructor
      · rw [hout, hLw]
        simp
      · intro k hk
        rw [hout] at hk
        simp only [List.length_singleton] at hk
        obtain rfl : k = 0 := Nat.lt_one_iff.mp hk
        rw [hout]
        have htake : doc.page_content.take window_size =
            doc.page_content := List.take_of_length_le (le_of_eq hLw)
        simp [htake, hLw]
    · push_neg at hle
      set L := doc.page_content.length with hL
      have hout : create_rolling_window_chunks [doc] window_size step_size
          = (pyRange (L - window_size + 1) step_size).map (fun i =>
            ⟨(doc.page_content.drop i).take window_size,
             .window doc.metadata i (i + window_size)⟩) := by
        simp [create_rolling_window_chunks, not_le.mpr hle, ← hL]
      have hlen : (create_rolling_window_chunks [doc] window_size
          step_size).length = (L - window_size) / step_size + 1 := by
        rw [hout]
        simp only [List.length_map, pyRange, List.length_range]
        have harg : L - window_size + 1 + step_size - 1 =
            L - window_size + step_size := by omega
        rw [harg, Nat.add_div_right _ hs]
      refine ⟨hlen, ?_⟩
      intro k hk
      rw [hlen] at hk
      have hkd : k ≤ (L - window_size) / step_size := by omega
      have hks : k * step_size ≤ L - window_size :=
        le_trans (Nat.mul_le_mul_right step_size hkd)
          (Nat.div_mul_le_self _ _)
      have hkrange : k < (L - window_size + 1 + step_size - 1) /
          step_size := by
        have harg : L - window_size + 1 + step_size - 1 =
            L - window_size + step_size := by omega
        rw [harg, Nat.add_div_right _ hs]
        omega
      constructor
      · rw [hout, List.getElem?_map]
        have hpr : (pyRange (L - window_size + 1) step_size)[k]? =
            some (k * step_size) := by
          unfold pyRange
          rw [List.getElem?_map, List.getElem?_range hkrange]
          rfl
        rw [hpr]
        rfl
      · have hdla : (doc.page_content.drop (k * step_size)).length =
            L - k * step_size := by simp [← hL]
        rw [List.length_take, hdla]
        omega
  · intro hlt
    simp [create_rolling_window_chunks, le_of_lt hlt]

/-- C3 witness: the 5-character text `abcde` with window 3 and step 1
yields `(5 - 3) / 1 + 1` chunks. -/
theorem C3_rolling_window_chunks_witness :
    0 < 1 ∧
    (create_rolling_window_chunks [(⟨"abcde".data, ()⟩ : Doc Unit)] 3
      1).length = ("abcde".data.length - 3) / 1 + 1 :=
  ⟨by decide,
   ((C3_rolling_window_chunks (⟨"abcde".data, ()⟩ : Doc Unit) 3 1
      (by decide)).1 (by decide)).1⟩

/-! ## C4: context-window expansion and range merging -/

theorem mergeLoop_head?_fst (l : List (Nat × Nat)) (cur : Nat × Nat) :
    (mergeLoop cur l).head?.map Prod.fst = some cur.1 := by
  induction l generalizing cur with
  | nil => rfl
  | cons r rest ih =>
    by_cases h : r.1 ≤ cur.2 + 1
    · simpa [mergeLoop, h] using ih (cur.1, max cur.2 r.2)
    · simp [mergeLoop, h]

theorem mergeLoop_chain' (l : List (Nat × Nat)) (cur : Nat × Nat) :
    List.Chain' (fun a b : Nat × Nat => a.2 + 1 < b.1)
      (mergeLoop cur l) := by
  induction l generalizing cur with
  | nil => simp [mergeLoop]
  | cons r rest ih =>
    by_cases h : r.1 ≤ cur.2 + 1
    · simpa [mergeLoop, h] using ih (cur.1, max cur.2 r.2)
    · simp only [mergeLoop, if_neg h]
      refine List.chain'_cons'.mpr ⟨?_, ih r⟩
      intro y hy
      have hhd := mergeLoop_head?_fst rest r
      have : y.1 = r.1 := by
        cases hmem : (mergeLoop r rest).head? with
        | none => rw [hmem] at hy; simp at hy
        | some z =>
          rw [hmem, Option.mem_some_iff] at hy
          rw [hmem] at hhd
          simp only [Option.map_some', Option.some.injEq] at hhd
          rw [← hy]
          exact hhd
      omega

/-- C4: each matched sequence number expands to the inclusive window
`(max(1, seq - context_window), seq + context_window)`; the merged ranges
are pairwise disjoint and non-adjacent (each next range starts strictly
after the previous end plus one, since ranges merge exactly when
`start ≤ previous_end + 1`); matches `[3, 10]` with window 2 give
`[(1,5), (8,12)]` and matches `[3, 5]` with window 2 give `[(1,7)]`. -/
theorem C4_context_ranges :
    (∀ (matched : List Nat) (context_window : Nat),
      matched.map (expandRange context_window) =
        matched.map (fun s =>
          (max 1 (s - context_window), s + context_window))) ∧
    (∀ (matched : List Nat) (context_window : Nat),
      List.Chain' (fun a b : Nat × Nat => a.2 + 1 < b.1)
        (contextRanges matched context_window)) ∧
    contextRanges [3, 10] 2 = [(1, 5), (8, 12)] ∧
    contextRanges [3, 5] 2 = [(1, 7)] := by
  refine ⟨fun matched cw => rfl, ?_, by decide, by decide⟩
  intro matched cw
  unfold contextRanges
  cases pySort pairLe (matched.map (expandRange cw)) with
  | nil => simp
  | cons r rest => exact mergeLoop_chain' rest r

/-! ## C1: hybrid weight renormalization -/

theorem hybrid_mem_score (vres fres : List SearchResult) (vw fw : ℚ)
    (k : Nat) :
    ∀ e ∈ hybrid_search vres fres vw fw k,
      e.score = e.vector_score * (normalizeWeights vw fw).1 +
        e.fuzzy_score * (normalizeWeights vw fw).2 := by
  intro e he
  simp only [hybrid_search] at he
  have h1 := List.mem_of_mem_take he
  have h2 := (pySort_perm (fun a b : HybridEntry => b.score ≤ a.score)
    _).mem_iff.mp h1
  obtain ⟨p, hp, rfl⟩ := List.mem_map.mp h2
  rfl

/-- C1: whenever the caller's weights have a positive sum, the weights
`hybrid_search` actually scores with sum to exactly 1, and an entry whose
fuzzy contribution is absent (`fuzzy_score = 0`) is scored
`vector_score * vector_weight` with the renormalized vector weight. -/
theorem C1_hybrid_weight_renormalization (vector_weight fuzzy_weight : ℚ)
    (h : 0 < vector_weight + fuzzy_weight) :
    (normalizeWeights vector_weight fuzzy_weight).1 +
      (normalizeWeights vector_weight fuzzy_weight).2 = 1 ∧
    ∀ (vres fres : List SearchResult) (top_k : Nat),
      ∀ e ∈ hybrid_search vres fres vector_weight fuzzy_weight top_k,
        e.fuzzy_score = 0 →
        e.score = e.vector_score *
          (normalizeWeights vector_weight fuzzy_weight).1 := by
  constructor
  · unfold normalizeWeights
    by_cases hsum : vector_weight + fuzzy_weight ≠ 1
    · rw [if_pos hsum, div_add_div_same, div_self (ne_of_gt h)]
    · rw [if_neg hsum]
      push_neg at hsum
      exact hsum
  · intro vres fres top_k e he hf
    have := hybrid_mem_score vres fres vector_weight fuzzy_weight top_k
      e he
    rw [this, hf, zero_mul, add_zero]

/-- C1 witness: weights `1` and `0` already sum to 1 and are kept. -/
theorem C1_hybrid_weight_renormalization_witness :
    (0 : ℚ) < 1 + 0 ∧
    (normalizeWeights 1 0).1 + (normalizeWeights 1 0).2 = 1 :=
  ⟨by simp, (C1_hybrid_weight_renormalization 1 0 (by simp)).1⟩

/-! ## C2: the hybrid merge never fires -/

/-- C2 evaluation at the failing input: one chunk with text `t` is
returned by the vector path (score 4/5) and by the fuzzy path (score
9/10), yet `hybrid_search` outputs two separate entries for it — a
vector-only one and a fuzzy-only one — because the search-result dicts
carry no `id` key, so `result.get("id", str(uuid.uuid4()))` always mints
a fresh id and the `doc_id in combined_results` merge branch is
unreachable.  No single entry carries both scores, contradicting the
claimed union by result identity. -/
theorem C2_hybrid_merge_dead_code_eval :
    (hybrid_search [⟨4/5, "t", "", "small"⟩] [⟨9/10, "t", "", "unknown"⟩]
      (7/10) (3/10) 5).map
      (fun e => (e.text, e.vector_score, e.fuzzy_score)) =
      [("t", 4/5, 0), ("t", 0, 9/10)] := by
  norm_num [hybrid_search, hybridAddVector, hybridAddFuzzy, dictSetNat,
    normalizeWeights, pySort, insertOrd]

/-! ## C7: sequence numbers cap at the scroll limit -/

theorem storeN_session : ∀ n, ∀ m ∈ storeN n, m.session_id = "s" := by
  intro n
  induction n with
  | zero => intro m hm; simp [storeN] at hm
  | succ k ih =>
    intro m hm
    simp only [storeN, store_message, List.mem_append,
      List.mem_singleton] at hm
    rcases hm with hm | hm
    · exact ih m hm
    · rw [hm]

theorem storeN_length : ∀ n, (storeN n).length = n := by
  intro n
  induction n with
  | zero => rfl
  | succ k ih => simp [storeN, store_message, ih]

theorem storeN_succ (n : Nat) :
    storeN (n + 1) =
      storeN n ++ [⟨"s", "m", "user", min 1000 n + 1⟩] := by
  have hfilter : (storeN n).filter (fun m => m.session_id = "s") =
      storeN n := by
    rw [List.filter_eq_self]
    intro m hm
    simpa using storeN_session n m hm
  simp only [storeN, store_message, sessionScroll, hfilter,
    List.length_take, storeN_length]

/-- C7 evaluation at the failing input: with a single writer storing into
one session from an empty store, message 1001 and message 1002 both
receive `sequence_num = 1001`, although 1001 messages exist in the
session before the 1002nd write — the scroll in `store_message` reads at
most 1000 points, so the claimed `count + 1` (which would be 1002) and
the strict per-message increase fail from the 1002nd message on. -/
theorem C7_sequence_number_cap_eval :
    (storeN 1001).length = 1001 ∧
    (storeN 1001).getLast?.map (fun m => m.sequence_num) = some 1001 ∧
    (storeN 1002).getLast?.map (fun m => m.sequence_num) = some 1001 := by
  refine ⟨storeN_length 1001, ?_, ?_⟩
  · rw [storeN_succ 1000]
    simp
  · rw [storeN_succ 1001]
    simp

/-! ## C8: retrieval ordering by sequence number -/

theorem contentToSeq_all_none (hits : List Hit)
    (h : ∀ x ∈ hits, x.sequence_num = none) : contentToSeq hits = [] := by
  have main : ∀ (l : List Hit) (d : List (String × Nat)),
      (∀ x ∈ l, x.sequence_num = none) →
      l.foldl (fun d h =>
        match h.sequence_num with
        | some n => dictSet d h.content n
        | none => d) d = d := by
    intro l
    induction l with
    | nil => intro d _; rfl
    | cons x xs ih =>
      intro d hall
      have hx : x.sequence_num = none := hall x (by simp)
      simp only [List.foldl_cons, hx]
      exact ih d (fun y hy => hall y (by simp [hy]))
  exact main hits [] h

theorem contentToSeq_eq_map (hits : List Hit)
    (hall : ∀ x ∈ hits, x.sequence_num.isSome)
    (hnodup : (hits.map (fun h => h.content)).Nodup) :
    contentToSeq hits =
      hits.map (fun h => (h.content, h.sequence_num.getD 0)) := by
  have main : ∀ (l : List Hit) (d : List (String × Nat)),
      (∀ x ∈ l, x.sequence_num.isSome) →
      (l.map (fun h => h.content)).Nodup →
      (∀ p ∈ d, ∀ x ∈ l, ¬ p.1 = x.content) →
      l.foldl (fun d h =>
        match h.sequence_num with
        | some n => dictSet d h.content n
        | none => d) d =
        d ++ l.map (fun h => (h.content, h.sequence_num.getD 0)) := by
    intro l
    induction l with
    | nil => intro d _ _ _; simp
    | cons x xs ih =>
      intro d hall2 hnd hdisj
      obtain ⟨n, hn⟩ := Option.isSome_iff_exists.mp (hall2 x (by simp))
      have hany : d.any (fun p => p.1 = x.content) = false := by
        simp only [List.any_eq_false, decide_eq_true_eq]
        intro p hp
        exact hdisj p hp x (by simp)
      have hset : dictSet d x.content n = d ++ [(x.content, n)] := by
        unfold dictSet
        rw [hany]
        simp
      have hndparts : (∀ y ∈ xs, ¬ y.content = x.content) ∧
          (xs.map (fun h => h.content)).Nodup := by simpa using hnd
      have hxnotin : ∀ y ∈ xs, ¬ x.content = y.content := by
        intro y hy heq
        exact hndparts.1 y hy heq.symm
      have hrec := ih (d ++ [(x.content, n)])
        (fun y hy => hall2 y (by simp [hy]))
        hndparts.2
        (by
          intro p hp y hy
          rcases List.mem_append.mp hp with hpd | hpx
          · exact hdisj p hpd y (by simp [hy])
          · have : p = (x.content, n) := by simpa using hpx
            rw [this]
            exact hxnotin y hy)
      simp only [List.foldl_cons, hn, hset, hrec, List.map_cons, hn]
      simp
  exact main hits [] hall hnodup (by intro p hp; simp at hp)

theorem lookupSeq_self (hits : List Hit)
    (hnodup : (hits.map (fun h => h.content)).Nodup)
    (x : Hit) (hx : x ∈ hits) :
    lookupSeq (hits.map (fun h => (h.content, h.sequence_num.getD 0)))
      x.content = x.sequence_num.getD 0 := by
  induction hits with
  | nil => cases hx
  | cons h rest ih =>
    have hparts : (∀ y ∈ rest, ¬ y.content = h.content) ∧
        (rest.map (fun h => h.content)).Nodup := by simpa using hnodup
    by_cases hc : h.content = x.content
    · have hxh : x = h := by
        rcases List.mem_cons.mp hx with heq | hxr
        · exact heq
        · exact absurd hc.symm (hparts.1 x hxr)
      subst hxh
      unfold lookupSeq
      rw [List.map_cons, List.find?_cons_of_pos _ (by simp)]
      rfl
    · have hxr : x ∈ rest := by
        rcases List.mem_cons.mp hx with heq | hxr
        · subst heq; exact absurd rfl hc
        · exact hxr
      unfold lookupSeq
      rw [List.map_cons, List.find?_cons_of_neg _ (by simpa using hc)]
      exact ih hparts.2 hxr

theorem retrieve_perm (hits : List Hit) :
    (retrieve_messages_by_sequence hits).Perm
      (hits.filterMap toChatMessage) := by
  simp only [retrieve_messages_by_sequence]
  by_cases hd : (contentToSeq hits).isEmpty
  · simp [hd]
  · simp only [hd, Bool.false_eq_true, if_false]
    exact pySort_perm _ _

/-- C8 (amended): when every hit carries a `sequence_num` and hit
contents are pairwise distinct, `retrieve_messages_by_sequence` returns
exactly the messages of the hits (as a permutation of the store's
result), in ascending order of the content-keyed sequence lookup, and
that lookup gives each hit its own sequence number — i.e. the output is
ordered by `sequence_num` ascending; when sequence metadata is absent on
every hit, the store-returned order is kept unchanged. -/
theorem C8_retrieve_messages_ordering (hits : List Hit) :
    ((∀ x ∈ hits, x.sequence_num.isSome) →
      (hits.map (fun h => h.content)).Nodup →
      (retrieve_messages_by_sequence hits).Perm
        (hits.filterMap toChatMessage) ∧
      List.Chain' (fun m₁ m₂ =>
        lookupSeq (contentToSeq hits) m₁.content ≤
          lookupSeq (contentToSeq hits) m₂.content)
        (retrieve_messages_by_sequence hits) ∧
      (∀ x ∈ hits, lookupSeq (contentToSeq hits) x.content =
        x.sequence_num.getD 0)) ∧
    ((∀ x ∈ hits, x.sequence_num = none) →
      retrieve_messages_by_sequence hits =
        hits.filterMap toChatMessage) := by
  constructor
  · intro hall hnodup
    refine ⟨retrieve_perm hits, ?_, ?_⟩
    · by_cases hd : (contentToSeq hits).isEmpty
      · have hmap := contentToSeq_eq_map hits hall hnodup
        rw [hmap] at hd
        have hnil : hits = [] := by simpa using hd
        subst hnil
        have hempty : retrieve_messages_by_sequence ([] : List Hit) = []
          := rfl
        rw [hempty]
        exact List.chain'_nil
      · rw [show retrieve_messages_by_sequence hits =
            pySort (fun m₁ m₂ =>
              lookupSeq (contentToSeq hits) m₁.content ≤
                lookupSeq (contentToSeq hits) m₂.content)
              (hits.filterMap toChatMessage) from by
          simp [retrieve_messages_by_sequence, hd]]
        exact pySort_chain' _ (fun a b => Nat.le_total _ _) _
    · intro x hx
      rw [contentToSeq_eq_map hits hall hnodup]
      exact lookupSeq_self hits hnodup x hx
  · intro hnone
    simp only [retrieve_messages_by_sequence,
      contentToSeq_all_none hits hnone]
    simp

/-- C8 counterexample: with duplicate contents the output is not ordered
by `sequence_num` ascending.  Hits with contents/sequence numbers
`("a",5), ("a",1), ("b",3)` come back as `[a, a, b]`, while the hits
arranged by ascending sequence number give `[a, b, a]` — the
content-keyed sort key cannot distinguish the two `a` messages. -/
theorem C8_retrieve_messages_ordering_counterexample :
    retrieve_messages_by_sequence
      [⟨"a", "user", some 5⟩, ⟨"a", "user", some 1⟩,
       ⟨"b", "user", some 3⟩] =
      [.human "a", .human "a", .human "b"] ∧
    (pySort (fun x y : Hit =>
        x.sequence_num.getD 0 ≤ y.sequence_num.getD 0)
      [⟨"a", "user", some 5⟩, ⟨"a", "user", some 1⟩,
       ⟨"b", "user", some 3⟩]).filterMap toChatMessage =
      [.human "a", .human "b", .human "a"] ∧
    ([.human "a", .human "a", .human "b"] : List ChatMessage) ≠
      [.human "a", .human "b", .human "a"] := by
  refine ⟨by decide, by decide, by decide⟩

/-- C8 witness: two distinct-content hits with sequence numbers 2 and 1
are returned sorted ascending. -/
theorem C8_retrieve_messages_ordering_witness :
    (∀ x ∈ ([⟨"b", "user", some 2⟩, ⟨"a", "user", some 1⟩] : List Hit),
      x.sequence_num.isSome) ∧
    List.Chain' (fun m₁ m₂ =>
      lookupSeq (contentToSeq
        [⟨"b", "user", some 2⟩, ⟨"a", "user", some 1⟩]) m₁.content ≤
        lookupSeq (contentToSeq
          [⟨"b", "user", some 2⟩, ⟨"a", "user", some 1⟩]) m₂.content)
      (retrieve_messages_by_sequence
        [⟨"b", "user", some 2⟩, ⟨"a", "user", some 1⟩]) :=
  ⟨by decide,
   ((C8_retrieve_messages_ordering
      [⟨"b", "user", some 2⟩, ⟨"a", "user", some 1⟩]).1
      (by decide) (by decide)).2.1⟩

/-! ## C5: empty-context short circuit -/

/-- C5: when both the document context and the conversation context come
out empty, `answer_query_with_conversation_context` answers with the
fixed insufficient-information message and never invokes the generation
model. -/
theorem C5_no_context_short_circuit
    (g : String → String → String) (fmt : ℚ → String)
    (document_chunks : List DocChunk)
    (relevant_messages : List ChatMessage)
    (use_conversation_memory : Bool) (store : List StoredMsg)
    (session_id query : String) (conversation_weight document_weight : ℚ)
    (hdoc : documentContextOf document_chunks = "")
    (hconv : conversationContextOf use_conversation_memory
      relevant_messages = "") :
    (answer_query_with_conversation_context g fmt document_chunks
      relevant_messages use_conversation_memory store session_id query
      conversation_weight document_weight).1.answer =
      insufficientInfoAnswer ∧
    (answer_query_with_conversation_context g fmt document_chunks
      relevant_messages use_conversation_memory store session_id query
      conversation_weight document_weight).1.generator_invoked =
      false := by
  simp [answer_query_with_conversation_context, selectAnswer, hdoc, hconv]

/-- C5 witness: no retrieved chunk and no relevant message yield the
fixed answer. -/
theorem C5_no_context_short_circuit_witness :
    documentContextOf [] = "" ∧
    conversationContextOf true [] = "" ∧
    (answer_query_with_conversation_context (fun _ _ => "model output")
      (fun _ => "0") [] [] true [] "sess" "q" (3/10) (7/10)).1.answer =
      insufficientInfoAnswer :=
  ⟨rfl, by decide,
   (C5_no_context_short_circuit (fun _ _ => "model output")
      (fun _ => "0") [] [] true [] "sess" "q" (3/10) (7/10) rfl
      (by decide)).1⟩

/-! ## C6: both turns persisted on every path -/

/-- C6: on every code path — the no-context short circuit included —
`answer_query_with_conversation_context` appends exactly two messages to
the conversation store: the user query and then the produced answer as
the assistant turn. -/
theorem C6_query_and_answer_persisted
    (g : String → String → String) (fmt : ℚ → String)
    (document_chunks : List DocChunk)
    (relevant_messages : List ChatMessage)
    (use_conversation_memory : Bool) (store : List StoredMsg)
    (session_id query : String)
    (conversation_weight document_weight : ℚ) :
    ((answer_query_with_conversation_context g fmt document_chunks
      relevant_messages use_conversation_memory store session_id query
      conversation_weight document_weight).2).map
      (fun m => (m.session_id, m.content, m.role)) =
      store.map (fun m => (m.session_id, m.content, m.role)) ++
      [(session_id, query, "user"),
       (session_id,
        (answer_query_with_conversation_context g fmt document_chunks
          relevant_messages use_conversation_memory store session_id
          query conversation_weight document_weight).1.answer,
        "assistant")] := by
  simp [answer_query_with_conversation_context, store_message]

/-! ## C9: deduplication of document chunks by exact text -/

theorem bool_eq_false_of_not {b : Bool} (h : ¬ b = true) : b = false := by
  cases b
  · rfl
  · exact absurd rfl h

theorem any_map_fst {α : Type} (d : List (String × α)) (k : String) :
    (d.map (fun p => p.1)).any (fun t => t = k) =
      d.any (fun p => p.1 = k) := by
  induction d with
  | nil => rfl
  | cons p rest ih => simp [ih]

theorem uniqueChunks_fold_keys :
    ∀ (chunks : List DocChunk) (d : List (String × DocChunk)),
      (chunks.foldl (fun d c => dictSet d c.text c) d).map
        (fun p => p.1) =
        d.map (fun p => p.1) ++
          dedupFrom (d.map (fun p => p.1))
            (chunks.map (fun c => c.text)) := by
  intro chunks
  induction chunks with
  | nil => intro d; simp [dedupFrom]
  | cons c rest ih =>
    intro d
    simp only [List.foldl_cons, List.map_cons]
    by_cases hmem : d.any (fun p => p.1 = c.text)
    · have hupd : dictSet d c.text c =
          d.map (fun p => if p.1 = c.text then (c.text, c) else p) := by
        unfold dictSet
        rw [if_pos hmem]
      have hkeys : (d.map (fun p =>
          if p.1 = c.text then (c.text, c) else p)).map (fun p => p.1) =
          d.map (fun p => p.1) := by
        rw [List.map_map]
        apply List.map_congr_left
        intro p hp
        by_cases hpk : p.1 = c.text
        · simp [hpk]
        · simp [hpk]
      have hseen : (d.map (fun p => p.1)).any (fun t => t = c.text) =
          true := by rw [any_map_fst]; exact hmem
      rw [hupd, ih, hkeys]
      simp only [dedupFrom, hseen, if_true]
    · have hupd : dictSet d c.text c = d ++ [(c.text, c)] := by
        unfold dictSet
        rw [if_neg hmem]
      have hseen : (d.map (fun p => p.1)).any (fun t => t = c.text) =
          false := by
        rw [any_map_fst]
        exact bool_eq_false_of_not hmem
      rw [hupd, ih]
      simp only [dedupFrom, hseen, List.map_append, List.map_cons,
        List.map_nil, List.append_assoc, List.singleton_append,
        Bool.false_eq_true, if_false]

theorem uniqueChunks_fold_text_eq_key :
    ∀ (chunks : List DocChunk) (d : List (String × DocChunk)),
      (∀ p ∈ d, p.2.text = p.1) →
      ∀ p ∈ chunks.foldl (fun d c => dictSet d c.text c) d,
        p.2.text = p.1 := by
  intro chunks
  induction chunks with
  | nil => intro d hd; exact hd
  | cons c rest ih =>
    intro d hd
    apply ih
    intro p hp
    have hp2 : p ∈ dictSet d c.text c := hp
    clear hp
    unfold dictSet at hp2
    by_cases hmem : d.any (fun p => p.1 = c.text)
    · rw [if_pos hmem] at hp2
      obtain ⟨q, hq, hqe⟩ := List.mem_map.mp hp2
      by_cases hqk : q.1 = c.text
      · rw [if_pos hqk] at hqe
        rw [← hqe]
      · rw [if_neg hqk] at hqe
        rw [← hqe]
        exact hd q hq
    · rw [if_neg hmem] at hp2
      rcases List.mem_append.mp hp2 with hpd | hpx
      · exact hd p hpd
      · have : p = (c.text, c) := by simpa using hpx
        rw [this]

theorem uniqueChunks_texts (chunks : List DocChunk) :
    (uniqueChunks chunks).map (fun c => c.text) =
      dedupFrom [] (chunks.map (fun c => c.text)) := by
  unfold uniqueChunks
  rw [List.map_map]
  have h1 : (chunks.foldl (fun d c => dictSet d c.text c) []).map
      ((fun c => c.text) ∘ (fun p : String × DocChunk => p.2)) =
      (chunks.foldl (fun d c => dictSet d c.text c) []).map
        (fun p => p.1) := by
    apply List.map_congr_left
    intro p hp
    exact uniqueChunks_fold_text_eq_key chunks [] (by simp) p hp
  rw [h1, uniqueChunks_fold_keys chunks []]
  simp

theorem dedupFrom_props : ∀ (l seen : List String),
    (dedupFrom seen l).Nodup ∧
      ∀ x ∈ dedupFrom seen l, seen.any (fun t => t = x) = false := by
  intro l
  induction l with
  | nil => intro seen; simp [dedupFrom]
  | cons x xs ih =>
    intro seen
    by_cases hx : seen.any (fun t => t = x)
    · simp only [dedupFrom, hx, if_true]
      exact ih seen
    · have hx' : seen.any (fun t => t = x) = false :=
        bool_eq_false_of_not hx
      simp only [dedupFrom, hx', Bool.false_eq_true, if_false]
      constructor
      · rw [List.nodup_cons]
        refine ⟨?_, (ih (seen ++ [x])).1⟩
        intro hmem
        have := (ih (seen ++ [x])).2 x hmem
        simp [List.any_append] at this
      · intro y hy
        rcases List.mem_cons.mp hy with rfl | hyr
        · exact hx'
        · have := (ih (seen ++ [x])).2 y hyr
          rw [List.any_append] at this
          exact (Bool.or_eq_false_iff.mp this).1

/-- C9: `answer_query_with_conversation_context` deduplicates the
retrieved chunks by exact text before building the document context: the
document entries of the source list carry exactly the distinct chunk
texts in order of first occurrence (one entry per text, whatever the
chunks' metadata), and the document context is those texts joined with
single spaces. -/
theorem C9_document_chunks_deduplicated
    (g : String → String → String) (fmt : ℚ → String)
    (document_chunks : List DocChunk)
    (relevant_messages : List ChatMessage)
    (use_conversation_memory : Bool) (store : List StoredMsg)
    (session_id query : String)
    (conversation_weight document_weight : ℚ) :
    ((answer_query_with_conversation_context g fmt document_chunks
      relevant_messages use_conversation_memory store session_id query
      conversation_weight document_weight).1.sources.filter
        (fun s => s.type = "document")).map (fun s => s.text) =
      dedupFrom [] (document_chunks.map (fun c => c.text)) ∧
    (dedupFrom [] (document_chunks.map (fun c => c.text))).Nodup ∧
    documentContextOf document_chunks =
      " ".intercalate
        (dedupFrom [] (document_chunks.map (fun c => c.text))) := by
  have hsources : (answer_query_with_conversation_context g fmt
      document_chunks relevant_messages use_conversation_memory store
      session_id query conversation_weight document_weight).1.sources =
      docSourcesOf document_chunks ++
        convSourcesOf use_conversation_memory relevant_messages := rfl
  have hconvfilter : (convSourcesOf use_conversation_memory
      relevant_messages).filter (fun s => s.type = "document") = [] := by
    unfold convSourcesOf
    by_cases hc : use_conversation_memory ∧
        ¬ relevant_messages.isEmpty
    · rw [if_pos hc]
      rw [List.filter_eq_nil_iff]
      intro s hs
      obtain ⟨m, _, hm⟩ := List.mem_map.mp hs
      rw [← hm]
      simp
    · rw [if_neg hc]
      rfl
  have hdocfilter : (docSourcesOf document_chunks).filter
      (fun s => s.type = "document") = docSourcesOf document_chunks := by
    rw [List.filter_eq_self]
    intro s hs
    unfold docSourcesOf at hs
    by_cases he : document_chunks.isEmpty
    · rw [if_pos he] at hs
      cases hs
    · rw [if_neg he] at hs
      obtain ⟨c, _, hc⟩ := List.mem_map.mp hs
      rw [← hc]
      simp
  refine ⟨?_, (dedupFrom_props (document_chunks.map (fun c => c.text))
    []).1, ?_⟩
  · rw [hsources, List.filter_append, hconvfilter, hdocfilter,
      List.append_nil]
    unfold docSourcesOf
    by_cases he : document_chunks.isEmpty
    · rw [if_pos he]
      have : document_chunks = [] := List.isEmpty_iff.mp he
      rw [this]
      simp [dedupFrom]
    · rw [if_neg he, List.map_map]
      have : ((fun s : Source => s.text) ∘ (fun c : DocChunk =>
          (⟨"document", c.text, c.metadata, c.score, c.strategy, ""⟩ :
            Source))) = fun c : DocChunk => c.text := rfl
      rw [this, uniqueChunks_texts]
  · unfold documentContextOf
    by_cases he : document_chunks.isEmpty
    · rw [if_pos he]
      have : document_chunks = [] := List.isEmpty_iff.mp he
      rw [this]
      simp only [List.map_nil, dedupFrom]
      rfl
    · rw [if_neg he, uniqueChunks_texts]

/-! ## C10: generate_answer guards -/

/-- C10: with an empty or whitespace-only context, `generate_answer`
returns the fixed no-information string without invoking the
question-answering pipeline; when the pipeline raises, it returns an
answer string describing the error instead of propagating the
exception. -/
theorem C10_generate_answer_fallbacks
    (qa : String → String → Except String String)
    (query context : String) :
    (pyStrip context = "" →
      generate_answer qa query context =
        ("No information found in the database.", false)) ∧
    (pyStrip context ≠ "" → ∀ e, qa query context = .error e →
      generate_answer qa query context =
        ("Error generating answer: " ++ e, true)) := by
  constructor
  · intro h
    simp [generate_answer, h]
  · intro h e he
    simp [generate_answer, h, he]

/-- C10 witness: a whitespace-only context and a raising pipeline. -/
theorem C10_generate_answer_fallbacks_witness :
    pyStrip "  " = "" ∧
    generate_answer (fun _ _ => Except.error "boom") "q" "  " =
      ("No information found in the database.", false) ∧
    generate_answer (fun _ _ => Except.error "boom") "q" "x" =
      ("Error generating answer: boom", true) :=
  ⟨rfl,
   (C10_generate_answer_fallbacks (fun _ _ => Except.error "boom")
      "q" "  ").1 rfl,
   (C10_generate_answer_fallbacks (fun _ _ => Except.error "boom")
      "q" "x").2 (by decide) "boom" rfl⟩

end KnowledgeBase
